import Mathlib

/-!
Shallow embedding of the rpc-go repository (a minimal net/rpc style RPC
runtime): the codec layer (pkg/codec: header, gob codec), the handshake
option (pkg/option), the client call engine (pkg/client) and the server
dispatch engine and service registry (pkg/server).

Go machine integers: `Seq` is a Go `uint64`, modelled as `Nat` with an
explicit `% 2 ^ 64` at the single place the code increments it.
`MagicNumber` is a Go `int`, modelled as `Int`.

Go errors are modelled as `Option`/`Except` values; the outcomes of reads
and writes performed by the opaque network connection are supplied as
explicit inputs (the code under verification only branches on them).
-/

namespace RpcGo

/-- Decidable equality for `Except`, used by the derived instances below. -/
instance {ε α : Type} [DecidableEq ε] [DecidableEq α] : DecidableEq (Except ε α)
  | .error x, .error y =>
    if h : x = y then .isTrue (congrArg Except.error h)
    else .isFalse (fun he => h (Except.error.inj he))
  | .error _, .ok _ => .isFalse (fun he => Except.noConfusion he)
  | .ok _, .error _ => .isFalse (fun he => Except.noConfusion he)
  | .ok x, .ok y =>
    if h : x = y then .isTrue (congrArg Except.ok h)
    else .isFalse (fun he => h (Except.ok.inj he))

/-- Go map read `m[k]` on an association list (an absent key reads as the
zero value, here `none`).  Also models `sync.Map.Load`. -/
def lookupA {κ β : Type} [DecidableEq κ] (m : List (κ × β)) (k : κ) : Option β :=
  match m with
  | [] => none
  | (k', v) :: rest => if k' = k then some v else lookupA rest k

/-- Go map assignment `m[k] = v` on an association list. -/
def insertA {κ β : Type} [DecidableEq κ] (m : List (κ × β)) (k : κ) (v : β) :
    List (κ × β) :=
  match m with
  | [] => [(k, v)]
  | (k', v') :: rest => if k' = k then (k, v) :: rest else (k', v') :: insertA rest k v

/-- Go `delete(m, k)` on an association list. -/
def removeA {κ β : Type} [DecidableEq κ] (m : List (κ × β)) (k : κ) : List (κ × β) :=
  match m with
  | [] => []
  | (k', v) :: rest => if k' = k then rest else (k', v) :: removeA rest k

/-- Wire frame header (pkg/codec, codec.go): fields `ServerMethod`, `Seq`,
`Error`. -/
structure Header where
  serverMethod : String
  seq : Nat
  error : String
deriving DecidableEq, Repr

/-- Codec type identifier `codec.GobType`. -/
def GobType : String := "application/gob"

/-- Codec type identifier `codec.JsonType`. -/
def JsonType : String := "application/json"

/-- Codec constructors.  The codec package registers exactly one
constructor, `NewGobCodec`, in its `init` function. -/
inductive CodecCtor
  | gob
deriving DecidableEq, Repr

/-- The map `codec.NewCodecFuncMap` after `init` ran: only the gob codec is
registered. -/
def NewCodecFuncMap : List (String × CodecCtor) := [(GobType, CodecCtor.gob)]

/-- The handshake magic constant `option.MagicNumber` (also repeated in the
older server file). -/
def MagicNumber : Int := 0x237658

/-- Handshake descriptor `option.Option`: fields `MagicNumber` (Go `int`)
and `CodecType`.  Named `Opt` because `Option` is taken in Lean. -/
structure Opt where
  magicNumber : Int
  codecType : String
deriving DecidableEq, Repr

/-- The hard-coded default descriptor `option.DefaultOption`. -/
def DefaultOption : Opt := { magicNumber := MagicNumber, codecType := GobType }

/-- Client option parsing `client.parseOption(opts ...*option.Option)`.
A `nil` option pointer is `Option.none`; the variadic slice is a list.
Mirrors the source: empty slice or leading nil yields the default
descriptor; more than one option is an error; otherwise the magic number is
overwritten with the default and an empty codec type is defaulted. -/
def parseOption (opts : List (Option Opt)) : Except String Opt :=
  match opts with
  | [] => .ok DefaultOption
  | o0 :: rest =>
    match o0 with
    | none => .ok DefaultOption
    | some opt =>
      if rest.length ≠ 0 then
        .error "number of options is more than 1"
      else
        let opt1 : Opt := { opt with magicNumber := DefaultOption.magicNumber }
        let opt2 : Opt :=
          if opt1.codecType = "" then { opt1 with codecType := DefaultOption.codecType }
          else opt1
        .ok opt2

/-! ## Gob codec (pkg/codec, gob.go) -/

/-- One item buffered or written by the gob codec: the encoding of a header
or the encoding of a body (the body payload is opaque to `Write`). -/
inductive Chunk
  | headerChunk (h : Header)
  | bodyChunk
deriving DecidableEq, Repr

/-- State of a `GobCodec`: the `bufio.Writer` buffer contents, the data so
far flushed to the underlying connection, and whether the connection was
closed.  The `gob` encoder and decoder carry no state relevant here. -/
structure GobCodec where
  buf : List Chunk
  connWritten : List Chunk
  connClosed : Bool
deriving DecidableEq, Repr

/-- Bufio flush `g.buf.Flush()`, with the outcome of the underlying
connection write supplied as input: `none` writes everything buffered to
the connection; `some k` writes only the first `k` buffered items before
the connection write fails, and bufio keeps the unwritten remainder
pending in its buffer (the sticky bufio error does not matter within one
`Write` call).  The source discards the returned flush error
(`_ = g.buf.Flush()`). -/
def GobCodec.flush (g : GobCodec) (res : Option Nat) : GobCodec :=
  match res with
  | none => { g with connWritten := g.connWritten ++ g.buf, buf := [] }
  | some k => { g with connWritten := g.connWritten ++ g.buf.take k, buf := g.buf.drop k }

/-- Codec close `GobCodec.Close`: closes the underlying connection. -/
def GobCodec.closeCodec (g : GobCodec) : GobCodec :=
  { g with connClosed := true }

/-- Gob codec write `GobCodec.Write(header, body)`.  The outcomes of the two
`enc.Encode` calls are the inputs `hErr` and `bErr` (an encode that fails
writes nothing to the buffer; one that succeeds appends the encoded value)
and the outcome of the connection write performed by the deferred flush is
the input `flushRes`.  The deferred function flushes the buffer —
discarding the flush error — and, when the named return value is a non-nil
error, closes the codec. -/
def GobCodec.write (g : GobCodec) (h : Header) (hErr bErr : Option String)
    (flushRes : Option Nat) : GobCodec × Option String :=
  let (g1, err) :=
    match hErr with
    | some e => (g, some e)
    | none =>
      let gh := { g with buf := g.buf ++ [Chunk.headerChunk h] }
      match bErr with
      | some e => (gh, some e)
      | none => ({ gh with buf := gh.buf ++ [Chunk.bodyChunk] }, none)
  let g2 := g1.flush flushRes
  let g3 := if err.isSome then g2.closeCodec else g2
  (g3, err)

/-! ## Service registry (pkg/server, service.go) -/

/-- Shallow model of `reflect.Type`, adequate for the types handled by the
registry: a named (or predeclared) non-composite type with its `Name()` and
`PkgPath()`, and the unnamed composite kinds the code distinguishes
(pointer, map, slice), whose `Name()` and `PkgPath()` are empty. -/
inductive GoType
  | named (name pkgPath : String)
  | ptr (elem : GoType)
  | mapType (key elem : GoType)
  | sliceType (elem : GoType)
deriving DecidableEq, Repr

/-- Go reflect `Type.Name()`: empty for the unnamed composite types. -/
def GoType.name : GoType → String
  | .named n _ => n
  | _ => ""

/-- Go reflect `Type.PkgPath()`: empty for unnamed types and for
predeclared types. -/
def GoType.pkgPath : GoType → String
  | .named _ p => p
  | _ => ""

/-- Whether the type is a pointer kind (`Kind() == reflect.Ptr`). -/
def GoType.isPtr : GoType → Bool
  | .ptr _ => true
  | _ => false

/-- The Go `error` interface type, `reflect.TypeOf((*error)(nil)).Elem()`:
predeclared, so its name is `error` and its package path is empty. -/
def errorType : GoType := GoType.named "error" ""

/-- Go `ast.IsExported`: the first character of the name is upper case
(identifiers here are ASCII, where the Lean `Char.isUpper` agrees with the Go
`unicode.IsUpper`).  The empty name is not exported. -/
def isExported (name : String) : Bool :=
  match name.data with
  | [] => false
  | c :: _ => c.isUpper

/-- `isExportedOrBuildType` from service.go. -/
def isExportedOrBuildType (t : GoType) : Bool :=
  isExported t.name || t.pkgPath = ""

/-- One method of a receiver as seen through reflection
(`s.typ.Method(i)`): its name and the input and output types of its
`Type`.  For a method on a concrete receiver type the receiver itself is
input 0. -/
structure GoMethod where
  name : String
  ins : List GoType
  outs : List GoType
deriving DecidableEq, Repr

/-- `methodType` from service.go: the concrete method plus its cached
argument and reply types (`ArgType = In(1)`, `ReplyType = In(2)`).  The
`numCalls` counter is not relevant to the registration claims. -/
structure MethodType where
  method : GoMethod
  argType : GoType
  replyType : GoType
deriving DecidableEq, Repr

/-- The body of the loop in `service.registerMethods` for one method:
skip unless there are exactly 3 inputs and 1 output, the output is the
`error` interface type, and both the argument and the reply type are
exported or built-in; otherwise store a `methodType` under the method
name. -/
def registerStep (acc : List (String × MethodType)) (m : GoMethod) :
    List (String × MethodType) :=
  match m.ins, m.outs with
  | [_, argType, replyType], [outType] =>
    if outType = errorType ∧ isExportedOrBuildType argType ∧ isExportedOrBuildType replyType then
      insertA acc m.name { method := m, argType := argType, replyType := replyType }
    else acc
  | _, _ => acc

/-- `service.registerMethods`: fold the loop body over the method
list of the receiver, starting from the freshly made empty map. -/
def registerMethods (ms : List GoMethod) : List (String × MethodType) :=
  ms.foldl registerStep []

/-- A `service` from service.go: its exported name and its method map.
The receiver value itself is opaque. -/
structure Service where
  name : String
  method : List (String × MethodType)
deriving DecidableEq, Repr

/-! ## Server dispatch engine (the server file of src/unnamed/part_001) -/

/-- Index of the last occurrence of a character, `strings.LastIndex`
specialised to the one-character separator the code uses. -/
def lastIndexOfChar (l : List Char) (c : Char) : Option Nat :=
  match l with
  | [] => none
  | x :: xs =>
    match lastIndexOfChar xs c with
    | some i => some (i + 1)
    | none => if x = c then some 0 else none

/-- `Server.findService(serviceMethod)`: split on the last dot, look up the
service in the service map, then the method in the method map of the service.
The `sync.Map` is modelled as an association list. -/
def findService (sm : List (String × Service)) (serviceMethod : String) :
    Except String (Service × MethodType) :=
  match lastIndexOfChar serviceMethod.data '.' with
  | none => .error ("rpc server: service/method request ill-formed: " ++ serviceMethod)
  | some dot =>
    let serviceName : String := ⟨serviceMethod.data.take dot⟩
    let methodName : String := ⟨serviceMethod.data.drop (dot + 1)⟩
    match lookupA sm serviceName with
    | none => .error ("rpc server: can\x27t find service " ++ serviceName)
    | some svc =>
      match lookupA svc.method methodName with
      | none => .error ("rpc server: can\x27t find method " ++ methodName)
      | some mtype => .ok (svc, mtype)

/-- The reads the negotiated codec will deliver on one connection: the
outcomes of successive `ReadHeader` calls and of successive `ReadBody`
calls (`none` = the body decoded successfully; the decoded values
themselves are opaque `reflect.Value`s). -/
structure CodecIn where
  headerReads : List (Except String Header)
  bodyReads : List (Option String)
deriving DecidableEq, Repr

/-- A fully read request (`request` in the source): its header and the
resolved service and method; the `argv` and `reply` `reflect.Value`s are
opaque. -/
structure Request where
  header : Header
  svc : Service
  mtype : MethodType
deriving DecidableEq, Repr

/-- The `(req *request, err error)` shapes `Server.readRequest` actually
returns: `req = nil` with an error (fatal), `req` non-nil with an error
(only its header set, after `findService` failed), or a complete request
with no error. -/
inductive ReadReqResult
  | fatalErr (e : String)
  | resolveErr (h : Header) (e : String)
  | okReq (req : Request)
deriving DecidableEq, Repr

/-- `Server.readRequest` (which inlines `Server.readRequestHeader`):
read a header — a failure (or an exhausted stream, read as end of file)
yields `nil, err`; resolve the service and method — a failure yields the
partially filled request and the error; allocate `argv`/`reply` (opaque)
and read the body into the argument — a failure yields `nil, err`. -/
def readRequest (sm : List (String × Service)) (cin : CodecIn) :
    ReadReqResult × CodecIn :=
  match cin.headerReads with
  | [] => (.fatalErr "EOF", cin)
  | .error e :: hrest => (.fatalErr e, { cin with headerReads := hrest })
  | .ok h :: hrest =>
    let cin1 : CodecIn := { cin with headerReads := hrest }
    match findService sm h.serverMethod with
    | .error e => (.resolveErr h e, cin1)
    | .ok (svc, mtype) =>
      match cin1.bodyReads with
      | [] => (.fatalErr "EOF", cin1)
      | some e :: brest => (.fatalErr e, { cin1 with bodyReads := brest })
      | none :: brest =>
        (.okReq { header := h, svc := svc, mtype := mtype },
         { cin1 with bodyReads := brest })

/-- Body of a response frame: the placeholder `invalidRequest` value
(`struct` value with no fields) sent on error paths, or the reply value of the
method. -/
inductive RespBody
  | invalidRequest
  | methodReply
deriving DecidableEq, Repr

/-- What one iteration of the loop in `Server.serveCodec` does:
break out of the loop (`req == nil`), send an error response with the
placeholder body and continue, or hand the request to a concurrent
`handleRequest` and continue. -/
inductive IterOutcome
  | fatal
  | perRequestError (h : Header) (body : RespBody)
  | dispatched (req : Request)
deriving DecidableEq, Repr

/-- One iteration of the loop in `Server.serveCodec`: classify the
`readRequest` outcome.  On a resolution error the `Error` field of the
header is set and `invalidRequest` is sent back. -/
def serveCodecStep (sm : List (String × Service)) (cin : CodecIn) :
    IterOutcome × CodecIn :=
  match readRequest sm cin with
  | (.fatalErr _, cin') => (.fatal, cin')
  | (.resolveErr h e, cin') =>
    (.perRequestError { h with error := e } RespBody.invalidRequest, cin')
  | (.okReq req, cin') => (.dispatched req, cin')

/-- The loop of `Server.serveCodec`, run with explicit fuel (every
iteration that continues consumes one header read, so
`cin.headerReads.length + 1` fuel always reaches the `break`). -/
def serveCodec (sm : List (String × Service)) (cin : CodecIn) : Nat → List IterOutcome
  | 0 => []
  | fuel + 1 =>
    match serveCodecStep sm cin with
    | (.fatal, _) => [.fatal]
    | (o, cin') => o :: serveCodec sm cin' fuel

/-- `Server.handleRequest` (run in its own goroutine): invoke the resolved
method — the invocation outcome is the input `callErr`; an error is placed
in the `Error` field of the header and reported with the placeholder body,
success reports the reply value. -/
def handleRequest (req : Request) (callErr : Option String) : Header × RespBody :=
  match callErr with
  | some e => ({ req.header with error := e }, RespBody.invalidRequest)
  | none => (req.header, RespBody.methodReply)

/-- Everything a connection will deliver: the result of JSON-decoding the
handshake `Option` from it, then the codec-level reads. -/
structure ConnData where
  handshake : Except String Opt
  headerReads : List (Except String Header)
  bodyReads : List (Option String)
deriving DecidableEq, Repr

/-- Outcome of `Server.ServeConn` on one connection. -/
inductive ConnOutcome
  /-- The goroutine panicked: the connection interface value was nil and
  was dereferenced (`json.NewDecoder(conn).Decode` reads from it; the
  deferred `conn.Close()` equally dereferences it). -/
  | panicked
  /-- `ServeConn` returned before entering the request loop; the deferred
  close shut the connection. -/
  | closedAtHandshake
  /-- `serveCodec` ran; the recorded iteration outcomes. -/
  | served (outcomes : List IterOutcome)
deriving DecidableEq, Repr

/-- `Server.ServeConn` (the server file of src/unnamed/part_001): decode
the handshake option with JSON — on a decode error, log
(the message quotes `opt.MagicNumber`) and return; look the codec type up
in `NewCodecFuncMap` — unknown codec, log and return; otherwise serve with
the negotiated codec.  The magic number of the option itself is never compared
against `MagicNumber`.  A nil connection panics at the first use. -/
def ServeConn (sm : List (String × Service)) (conn : Option ConnData) : ConnOutcome :=
  match conn with
  | none => .panicked
  | some c =>
    match c.handshake with
    | .error _ => .closedAtHandshake
    | .ok opt =>
      match lookupA NewCodecFuncMap opt.codecType with
      | none => .closedAtHandshake
      | some _ =>
        .served (serveCodec sm { headerReads := c.headerReads, bodyReads := c.bodyReads }
          (c.headerReads.length + 1))

/-- One iteration of `Server.Accept`: `lis.Accept()` produced `conn` and
`err` (the Go contract: on a non-nil error the returned connection is
nil).  The source logs a non-nil error but neither `continue`s nor
returns, and always falls through to `s.ServeConn(conn)`. -/
def acceptIteration (sm : List (String × Service)) (conn : Option ConnData)
    (err : Option String) : ConnOutcome :=
  ServeConn sm conn

/-! ## Formatting with fmt and no operands

The client stores `fmt.Errorf(h.Error)` — the header error string used as a
format string with no operands.  The functions below translate the
zero-operand specialisation of `fmt` `doPrintf`: literal text is copied;
`%%` prints a percent; a star width or precision reports
BADWIDTH/BADPREC; an explicit argument index (always invalid with no
operands) makes the verb report BADINDEX; a format ending inside a
directive reports NOVERB; every other verb reports MISSING. -/

/-- The fmt flag characters accepted before a verb. -/
def isFmtFlag (c : Char) : Bool :=
  c = '#' || c = '0' || c = '+' || c = '-' || c = ' '

/-- An explicit argument-index clause `[n]`.  With no operands any index is
invalid, so when a bracket is present the argument number is marked bad;
fmt consumes through the closing bracket when one exists and otherwise
just the opening bracket. -/
def parseArgIndex : List Char → Bool × List Char
  | '[' :: tl =>
    match tl.dropWhile (fun c => ¬ c = ']') with
    | _ :: tl2 => (true, tl2)
    | [] => (true, tl)
  | l => (false, l)

/-- One directive after the percent sign, with no operands: skip flags,
then the three positions fmt accepts an argument index in (before the
width, after the dot, and before the verb), the width and the precision.
Returns the emitted text and the rest of the format. -/
def fmtDirective (l : List Char) : List Char × List Char :=
  let l1 := l.dropWhile isFmtFlag
  let (bad1, l2) := parseArgIndex l1
  let (widthOut, l3) :=
    match l2 with
    | '*' :: tl => ("%!(BADWIDTH)".data, tl)
    | _ => (([] : List Char), l2.dropWhile Char.isDigit)
  let (bad2, precOut, l4) :=
    match l3 with
    | '.' :: tl =>
      let (b, tl1) := parseArgIndex tl
      match tl1 with
      | '*' :: tl2 => (b, "%!(BADPREC)".data, tl2)
      | _ => (b, ([] : List Char), tl1.dropWhile Char.isDigit)
    | _ => (false, ([] : List Char), l3)
  let (bad3, l5) := parseArgIndex l4
  let badIndex := bad1 || bad2 || bad3
  match l5 with
  | [] => (widthOut ++ precOut ++ "%!(NOVERB)".data, [])
  | v :: tl =>
    if v = '%' then (widthOut ++ precOut ++ ['%'], tl)
    else if badIndex then
      (widthOut ++ precOut ++ '%' :: '!' :: v :: "(BADINDEX)".data, tl)
    else
      (widthOut ++ precOut ++ '%' :: '!' :: v :: "(MISSING)".data, tl)

/-- The copying loop of `doPrintf` with no operands.  The fuel bounds the
number of iterations; every iteration consumes at least the character it
inspects, so fuel equal to the input length always suffices. -/
def fmtNoArgsAux : Nat → List Char → List Char
  | 0, _ => []
  | _ + 1, [] => []
  | fuel + 1, c :: rest =>
    if c = '%' then
      let (out, rest1) := fmtDirective rest
      out ++ fmtNoArgsAux fuel rest1
    else
      c :: fmtNoArgsAux fuel rest

/-- `fmt.Errorf(s)` with no operands: the message of the resulting error is
the format string rendered with no arguments. -/
def fmtErrorf (s : String) : String :=
  ⟨fmtNoArgsAux s.data.length s.data⟩

/-! ## Client call engine (pkg/client) -/

/-- Go error values the client code produces or receives.  `ErrShutdown`
is the distinguished sentinel `client.ErrShutdown`; every other error is
identified by its message (`errors.New` yields an error whose message is
the given string; `fmt.Errorf` renders its format string, `fmtErrorf`
above). -/
inductive GoErr
  | errShutdown
  | errMsg (s : String)
deriving DecidableEq, Repr

/-- A `client.Call`: its sequence number, method name and error slot.  The
`Args`/`Reply` payloads are opaque; `doneCount` counts how many times
`done()` sent the call on its `Done` channel, so completion-exactly-once is
observable. -/
structure Call where
  seq : Nat
  serverMethod : String
  error : Option GoErr
  doneCount : Nat
deriving DecidableEq, Repr

/-- The mutable state of a `client.Client`: sequence counter, pending-call
table and the two shutdown flags.  The codec handle and the two mutexes
are not state the claims range over (operations below are the critical
sections those mutexes serialise). -/
structure Client where
  seq : Nat
  pending : List (Nat × Call)
  closing : Bool
  shutdown : Bool
deriving DecidableEq, Repr

/-- `client.newClientCodec`: the fresh client state — the sequence counter
starts at 1 (0 means an invalid call), the pending table is empty. -/
def newClientCodec : Client :=
  { seq := 1, pending := [], closing := false, shutdown := false }

/-- `Client.registryCall`: under the table lock, reject with `ErrShutdown`
when closing or shut down; otherwise stamp the call with the current
sequence number, insert it and increment the counter (a Go `uint64`
increment, hence the reduction modulo `2 ^ 64`). -/
def Client.registryCall (c : Client) (call : Call) : Client × Except GoErr Nat :=
  if c.closing || c.shutdown then (c, .error .errShutdown)
  else
    let call1 : Call := { call with seq := c.seq }
    ({ c with pending := insertA c.pending call1.seq call1,
              seq := (c.seq + 1) % 2 ^ 64 },
     .ok call1.seq)

/-- `Client.removeCall`: look the sequence number up, delete it, return the
call (or `none`). -/
def Client.removeCall (c : Client) (seq : Nat) : Client × Option Call :=
  ({ c with pending := removeA c.pending seq }, lookupA c.pending seq)

/-- `Client.terminalCalls(err)`: holding both locks, set the `shutdown`
flag, then give every pending call the error and complete it (`done()`).
The table entries themselves are not deleted by this function. -/
def Client.terminalCalls (c : Client) (err : GoErr) : Client × List Call :=
  let updated := c.pending.map
    (fun p => (p.1, { p.2 with error := some err, doneCount := p.2.doneCount + 1 }))
  ({ c with shutdown := true, pending := updated }, updated.map Prod.snd)

/-- Which destination a `ReadBody` call in the receive loop was given:
the nil interface (drain and discard) or the `Reply` of the matched call. -/
inductive BodyDest
  | nilDest
  | replyDest
deriving DecidableEq, Repr

/-- Result of one receive-loop iteration: the client state after it, the
destination handed to `ReadBody`, the loop error variable after the
iteration, and the calls completed by it. -/
structure RecvStep where
  client : Client
  dest : BodyDest
  err : Option String
  completed : List Call
deriving DecidableEq, Repr

/-- One iteration of `Client.receive` after `ReadHeader` succeeded with
`h`; `bodyErr` is the outcome of the single `ReadBody` the iteration then
performs.  No matching pending call: drain into nil.  Header carries an
error string: record `fmt.Errorf(h.Error)` — the string rendered as a
format with no operands — on the call, drain into nil, complete it.
Otherwise: decode into the reply of the call; on a decode error record
`"reading body " + err` (built with `errors.New`) on the call; complete it
either way. -/
def Client.receiveStep (c : Client) (h : Header) (bodyErr : Option String) : RecvStep :=
  let (c1, call?) := c.removeCall h.seq
  match call? with
  | none => { client := c1, dest := .nilDest, err := bodyErr, completed := [] }
  | some call =>
    if h.error ≠ "" then
      let call1 : Call := { call with error := some (.errMsg (fmtErrorf h.error)) }
      { client := c1, dest := .nilDest, err := bodyErr,
        completed := [{ call1 with doneCount := call1.doneCount + 1 }] }
    else
      match bodyErr with
      | none =>
        { client := c1, dest := .replyDest, err := none,
          completed := [{ call with doneCount := call.doneCount + 1 }] }
      | some e =>
        let call1 : Call := { call with error := some (.errMsg ("reading body " ++ e)) }
        { client := c1, dest := .replyDest, err := some e,
          completed := [{ call1 with doneCount := call1.doneCount + 1 }] }

/-- The whole of `Client.receive`: iterate while the loop error is nil —
each input element is one `ReadHeader` outcome together with the body-read
outcome of that iteration; an exhausted stream reads as end of file.  When
the loop breaks, `terminalCalls` runs with the error.  Returns the final
client state and every call completed by the loop or by the teardown. -/
def Client.receiveRun (c : Client) :
    List (Except String (Header × Option String)) → Client × List Call
  | [] =>
    let (c1, done) := c.terminalCalls (.errMsg "EOF")
    (c1, done)
  | .error e :: _ =>
    let (c1, done) := c.terminalCalls (.errMsg e)
    (c1, done)
  | .ok (h, be) :: rest =>
    let st := c.receiveStep h be
    match st.err with
    | some e =>
      let (c1, done) := st.client.terminalCalls (.errMsg e)
      (c1, st.completed ++ done)
    | none =>
      let (c1, done) := st.client.receiveRun rest
      (c1, st.completed ++ done)

/-- Result of `Client.send`: the client state, the headers written through
the codec (the argument payload is opaque), and the calls completed. -/
structure SendResult where
  client : Client
  writes : List Header
  completed : List Call
deriving DecidableEq, Repr

/-- `Client.send`: under the sending lock, register the call — on a
registration error complete the call with it and return without touching
the codec; otherwise build the header from the issued sequence number and
write it with the arguments (`writeErr` is the outcome of that write); on a
write error remove and, if still pending, complete the call with the
error. -/
def Client.send (c : Client) (call : Call) (writeErr : Option GoErr) : SendResult :=
  match c.registryCall call with
  | (c1, .error err) =>
    { client := c1, writes := [],
      completed := [{ call with error := some err, doneCount := call.doneCount + 1 }] }
  | (c1, .ok seq) =>
    let hdr : Header := { serverMethod := call.serverMethod, seq := seq, error := "" }
    match writeErr with
    | none => { client := c1, writes := [hdr], completed := [] }
    | some err =>
      let (c2, removed) := c1.removeCall seq
      match removed with
      | none => { client := c2, writes := [hdr], completed := [] }
      | some call2 =>
        { client := c2, writes := [hdr],
          completed := [{ call2 with error := some err, doneCount := call2.doneCount + 1 }] }

/-- Result of `Client.Go`: either the `log.Panic` on an unbuffered done
channel, or the effect of the `send` it performs. -/
inductive GoResult
  | panicked (msg : String)
  | ran (r : SendResult)
deriving DecidableEq, Repr

/-- `Client.Go`: a nil done channel (`none`) is replaced by a fresh
buffered one; an unbuffered channel (`some 0`) is a `log.Panic`; then a
fresh `Call` for the method is built and handed to `send`. -/
def Client.goCall (c : Client) (serverMethod : String) (doneCap : Option Nat)
    (writeErr : Option GoErr) : GoResult :=
  match doneCap with
  | some 0 => .panicked "rpc client: done channel is unbuffered"
  | _ =>
    let call : Call := { seq := 0, serverMethod := serverMethod, error := none, doneCount := 0 }
    .ran (c.send call writeErr)

/-- `Client.Close`: a second close reports `ErrShutdown`; otherwise mark
the client user-closed (the close result of the codec is opaque). -/
def Client.closeClient (c : Client) : Client × Option GoErr :=
  if c.closing then (c, some .errShutdown)
  else ({ c with closing := true }, none)

/-- The client operations that touch the client state, for stating
state-invariant claims over arbitrary interleavings. -/
inductive ClientOp
  | registry (call : Call)
  | remove (seq : Nat)
  | sendOp (call : Call) (writeErr : Option GoErr)
  | recv (h : Header) (bodyErr : Option String)
  | terminate (err : GoErr)
  | closeOp
deriving Repr

/-- Apply one client operation to the state. -/
def applyOp (c : Client) : ClientOp → Client
  | .registry call => (c.registryCall call).1
  | .remove seq => (c.removeCall seq).1
  | .sendOp call we => (c.send call we).client
  | .recv h be => (c.receiveStep h be).client
  | .terminate err => (c.terminalCalls err).1
  | .closeOp => (c.closeClient).1

/-- Run a list of client operations from a state. -/
def runOps (c : Client) (ops : List ClientOp) : Client :=
  ops.foldl applyOp c

/-! ## Concrete fixtures (the demo service of main.go, and small inputs) -/

/-- The demo method `Foo.Sum(args Args, reply *int) error` of main.go, as
seen by reflection on the registered receiver. -/
def fooSumMethod : GoMethod :=
  { name := "Sum",
    ins := [GoType.ptr (GoType.named "Foo" "main"), GoType.named "Args" "main",
            GoType.ptr (GoType.named "int" "")],
    outs := [errorType] }

/-- The `methodType` the registry builds for `Foo.Sum`. -/
def fooSumMT : MethodType :=
  { method := fooSumMethod, argType := GoType.named "Args" "main",
    replyType := GoType.ptr (GoType.named "int" "") }

/-- The registered `Foo` service. -/
def fooService : Service := { name := "Foo", method := registerMethods [fooSumMethod] }

/-- A service map holding only `Foo`. -/
def demoServiceMap : List (String × Service) := [("Foo", fooService)]

/-- A helper method whose reply parameter is an exported struct rather than
a pointer: shaped `(receiver, Args, Args) → error`. -/
def nonPtrReplyMethod : GoMethod :=
  { name := "BadReply",
    ins := [GoType.named "Foo" "main", GoType.named "Args" "main",
            GoType.named "Args" "main"],
    outs := [errorType] }

/-- Codec input where the header resolves to `Foo.Sum` but decoding the
body into the argument fails. -/
def bodyFailIn : CodecIn :=
  { headerReads := [.ok { serverMethod := "Foo.Sum", seq := 1, error := "" }],
    bodyReads := [some "gob: unknown type id"] }

/-- A connection whose handshake decodes successfully but carries magic
number 0 instead of `MagicNumber`, and then ends. -/
def wrongMagicConn : ConnData :=
  { handshake := .ok { magicNumber := 0, codecType := GobType },
    headerReads := [], bodyReads := [] }

/-- A pending call with sequence number 1. -/
def callA : Call := { seq := 1, serverMethod := "Foo.Sum", error := none, doneCount := 0 }

/-- A pending call with sequence number 2. -/
def callB : Call := { seq := 2, serverMethod := "Foo.Sum", error := none, doneCount := 0 }

/-- A client with two outstanding calls. -/
def clientTwoPending : Client :=
  { seq := 3, pending := [(1, callA), (2, callB)], closing := false, shutdown := false }

/-- A client on which `Close` has been called. -/
def closedClient : Client :=
  { seq := 5, pending := [], closing := true, shutdown := false }

/-- A gob codec with an empty write buffer. -/
def emptyGob : GobCodec := { buf := [], connWritten := [], connClosed := false }

/-! ## Statement abbreviations for the claims -/

/-- The admission shape, worded from the specification but amended: exactly
three inputs (receiver, argument, reply), output list exactly the `error`
interface type, and every non-receiver input type exported or built-in.
The reply-pointer requirement of the original claim is deliberately absent:
registration does not check it. -/
def SpecAdmittedAmended (m : GoMethod) : Prop :=
  m.ins.length = 3 ∧ m.outs = [errorType] ∧
    ∀ t ∈ m.ins.drop 1, isExportedOrBuildType t = true

instance (m : GoMethod) : Decidable (SpecAdmittedAmended m) := by
  unfold SpecAdmittedAmended; infer_instance

/-- The `methodType` descriptor registration stores for an admitted method
(whose input list is receiver, argument, reply, so the argument type is
input 1 and the reply type input 2; the `getD` default is never reached
for admitted methods). -/
def mkMethodType (m : GoMethod) : MethodType :=
  { method := m, argType := m.ins.getD 1 errorType, replyType := m.ins.getD 2 errorType }

/-- Conclusion of the amended claim C2: a receiver method is registered
under its name exactly when it matches the amended shape, and the stored
descriptor caches input 1 as the argument type and input 2 as the reply
type. -/
def RegisterShapeConcl (ms : List GoMethod) (m : GoMethod) : Prop :=
  ((lookupA (registerMethods ms) m.name).isSome = true ↔ SpecAdmittedAmended m) ∧
  ∀ r argT replyT outT, m.ins = [r, argT, replyT] → m.outs = [outT] →
    SpecAdmittedAmended m →
    lookupA (registerMethods ms) m.name =
      some { method := m, argType := argT, replyType := replyT }

/-- Conclusion of the amended claim C3: classification of one iteration of
the serve loop — header-read failures and body-decode failures break the
loop, service/method-resolution failures answer with the error in the
header and the placeholder body and then continue. -/
def ServeClassifyConcl (sm : List (String × Service)) (cin : CodecIn) : Prop :=
  (cin.headerReads = [] → (serveCodecStep sm cin).1 = .fatal) ∧
  (∀ e hrest, cin.headerReads = .error e :: hrest → (serveCodecStep sm cin).1 = .fatal) ∧
  (∀ h hrest e, cin.headerReads = .ok h :: hrest →
    findService sm h.serverMethod = .error e →
    serveCodecStep sm cin =
      (.perRequestError { h with error := e } RespBody.invalidRequest,
       { cin with headerReads := hrest })) ∧
  (∀ h hrest svcmt e brest, cin.headerReads = .ok h :: hrest →
    findService sm h.serverMethod = .ok svcmt → cin.bodyReads = some e :: brest →
    (serveCodecStep sm cin).1 = .fatal) ∧
  (∀ fuel, (serveCodecStep sm cin).1 = .fatal → serveCodec sm cin (fuel + 1) = [.fatal]) ∧
  (∀ fuel h body cin', serveCodecStep sm cin = (.perRequestError h body, cin') →
    serveCodec sm cin (fuel + 1) = .perRequestError h body :: serveCodec sm cin' fuel)

/-- Conclusion of claim C5: `terminalCalls` sets the shutdown flag and
completes every pending call with the error, each exactly once; no other
client operation changes the shutdown flag; and the receive loop always
ends in `terminalCalls`. -/
def TerminalConcl (c : Client) (err : GoErr) : Prop :=
  ((c.terminalCalls err).1).shutdown = true ∧
  (c.terminalCalls err).2 =
    c.pending.map (fun p => { p.2 with error := some err, doneCount := p.2.doneCount + 1 }) ∧
  ((c.terminalCalls err).2).length = c.pending.length ∧
  (∀ call ∈ (c.terminalCalls err).2, call.error = some err) ∧
  (∀ call, ((c.registryCall call).1).shutdown = c.shutdown) ∧
  (∀ seq, ((c.removeCall seq).1).shutdown = c.shutdown) ∧
  ((c.closeClient).1).shutdown = c.shutdown ∧
  (∀ h be, ((c.receiveStep h be).client).shutdown = c.shutdown) ∧
  (∀ call we, ((c.send call we).client).shutdown = c.shutdown) ∧
  (∀ ins, ((c.receiveRun ins).1).shutdown = true)

/-- Conclusion of claim C6: behaviour of one receive-loop iteration on a
frame, split over the three cases of the source. -/
def ReceiveStepConcl (c : Client) (h : Header) (be : Option String) : Prop :=
  ((c.receiveStep h be).client).pending = removeA c.pending h.seq ∧
  (lookupA c.pending h.seq = none →
    (c.receiveStep h be).dest = .nilDest ∧ (c.receiveStep h be).completed = []) ∧
  (∀ call, lookupA c.pending h.seq = some call → h.error ≠ "" →
    (c.receiveStep h be).dest = .nilDest ∧
    (c.receiveStep h be).completed =
      [{ call with error := some (.errMsg (fmtErrorf h.error)), doneCount := call.doneCount + 1 }] ∧
    ('%' ∉ h.error.data → fmtErrorf h.error = h.error)) ∧
  (∀ call, lookupA c.pending h.seq = some call → h.error = "" →
    (c.receiveStep h be).dest = .replyDest ∧
    (be = none →
      (c.receiveStep h be).completed = [{ call with doneCount := call.doneCount + 1 }]) ∧
    (∀ e, be = some e →
      (c.receiveStep h be).completed =
        [{ call with error := some (.errMsg ("reading body " ++ e)), doneCount := call.doneCount + 1 }]))

/-- Conclusion of claim C7: on a closing or shut-down client, `send`
completes the call with `ErrShutdown`, leaves the client state (pending
table and sequence counter) untouched and writes nothing; `Go` behaves the
same through its `send`. -/
def ShutdownRejectConcl (c : Client) (call : Call) (we : Option GoErr) : Prop :=
  c.send call we =
    { client := c, writes := [],
      completed := [{ call with error := some GoErr.errShutdown, doneCount := call.doneCount + 1 }] } ∧
  ∀ m dc, dc ≠ some 0 →
    c.goCall m dc we =
      .ran { client := c, writes := [],
             completed := [{ seq := 0, serverMethod := m, error := some GoErr.errShutdown, doneCount := 1 }] }

/-- The sequence-number invariant of claim C8: the counter is at least 1,
pending keys are pairwise distinct, and every pending entry has a nonzero
key below the counter that matches the stamped sequence number of its call. -/
def SeqInv (c : Client) : Prop :=
  1 ≤ c.seq ∧
  (c.pending.map Prod.fst).Nodup ∧
  ∀ p ∈ c.pending, 1 ≤ p.1 ∧ p.1 < c.seq ∧ p.2.seq = p.1

/-- Conclusion of claim C8 over a trace of client operations from the fresh
client: the counter starts at 1, the invariant holds, and any successful
registration issues a nonzero sequence number not held by any call pending
before it. -/
def SeqClaimConcl (ops : List ClientOp) : Prop :=
  newClientCodec.seq = 1 ∧
  SeqInv (runOps newClientCodec ops) ∧
  ∀ call c' s, (runOps newClientCodec ops).registryCall call = (c', .ok s) →
    s ≠ 0 ∧ ∀ p ∈ (runOps newClientCodec ops).pending, p.1 ≠ s

/-- Conclusion of the amended claim C9: the return value of `Write`
reflects only the two encodes (the flush outcome is discarded); when
`Write` returns nil and the flush succeeded, header and body are both on
the connection with nothing retained in the buffer; when `Write` returns a
non-nil error the codec has closed the connection before returning.  A
failed flush can leave frame bytes pending in the buffer while `Write`
still returns nil. -/
def GobWriteConcl (g : GobCodec) (h : Header) (hErr bErr : Option String)
    (flushRes : Option Nat) : Prop :=
  ((g.write h hErr bErr flushRes).2 = none ↔ hErr = none ∧ bErr = none) ∧
  ((g.write h hErr bErr flushRes).2 = none → flushRes = none →
    (g.write h hErr bErr flushRes).1.connWritten =
      g.connWritten ++ [Chunk.headerChunk h, Chunk.bodyChunk] ∧
    (g.write h hErr bErr flushRes).1.buf = [] ∧
    (g.write h hErr bErr flushRes).1.connClosed = g.connClosed) ∧
  ∀ e, (g.write h hErr bErr flushRes).2 = some e →
    (g.write h hErr bErr flushRes).1.connClosed = true

/-- Conclusion of claim C10: an explicitly supplied single non-nil option
comes back with the default magic number and a defaulted empty codec type,
and no accepted option ever carries a non-default magic number. -/
def ParseOptionConcl : Prop :=
  (∀ o : Opt, parseOption [some o] =
    .ok { magicNumber := MagicNumber,
          codecType := if o.codecType = "" then GobType else o.codecType }) ∧
  ∀ opts r, parseOption opts = .ok r → r.magicNumber = MagicNumber

/-! ## Shared lemmas about the association-list map model -/

theorem lookupA_insertA_self {κ β : Type} [DecidableEq κ] (m : List (κ × β)) (k : κ) (v : β) :
    lookupA (insertA m k v) k = some v := by
  induction m with
  | nil => simp [insertA, lookupA]
  | cons p rest ih =>
    obtain ⟨k', v'⟩ := p
    by_cases h : k' = k
    · simp [insertA, lookupA, h]
    · simp [insertA, lookupA, h, ih]

theorem lookupA_insertA_ne {κ β : Type} [DecidableEq κ] (m : List (κ × β)) (k : κ) (v : β)
    (k' : κ) (h : k' ≠ k) : lookupA (insertA m k v) k' = lookupA m k' := by
  have h' : ¬ k = k' := fun he => h he.symm
  induction m with
  | nil => simp [insertA, lookupA, h']
  | cons p rest ih =>
    obtain ⟨k0, v0⟩ := p
    by_cases h0 : k0 = k
    · subst h0
      simp [insertA, lookupA, h']
    · by_cases h1 : k0 = k'
      · simp [insertA, lookupA, h0, h1, h]
      · simp [insertA, lookupA, h0, h1, ih]

theorem insertA_eq_append {κ β : Type} [DecidableEq κ] (m : List (κ × β)) (k : κ) (v : β)
    (h : ∀ p ∈ m, p.1 ≠ k) : insertA m k v = m ++ [(k, v)] := by
  induction m with
  | nil => simp [insertA]
  | cons p rest ih =>
    obtain ⟨k0, v0⟩ := p
    have hk0 : k0 ≠ k := h (k0, v0) (by simp)
    simp [insertA, hk0]
    exact ih (fun q hq => h q (by simp [hq]))

theorem removeA_sublist {κ β : Type} [DecidableEq κ] (m : List (κ × β)) (k : κ) :
    List.Sublist (removeA m k) m := by
  induction m with
  | nil => simp [removeA]
  | cons p rest ih =>
    obtain ⟨k0, v0⟩ := p
    by_cases h : k0 = k
    · simpa [removeA, h] using List.sublist_cons_self (k0, v0) rest
    · simp only [removeA, if_neg h]
      exact ih.cons₂ (k0, v0)

/-! ## Claim theorems -/

/-- C4 (code_bug evidence): when one call to `lis.Accept` fails, the Go
contract makes the returned connection nil; the accept loop logs the error
but falls through to `ServeConn(nil)`, whose first use of the connection
panics.  The loop therefore crashes instead of proceeding to the next
accept. -/
theorem accept_error_panics (sm : List (String × Service)) (e : String) :
    acceptIteration sm none (some e) = .panicked := rfl

/-- C1 (code_bug evidence): a handshake descriptor whose magic number is 0
(not the expected `MagicNumber`) but whose codec type is known is not
rejected by `ServeConn`: the connection is served — the request loop even
dispatches a request — rather than closed at the handshake. -/
theorem serveConn_serves_wrong_magic :
    (0 : Int) ≠ MagicNumber ∧
    ServeConn demoServiceMap
        (some { handshake := .ok { magicNumber := 0, codecType := GobType },
                headerReads := [.ok { serverMethod := "Foo.Sum", seq := 7, error := "" }],
                bodyReads := [none] }) =
      .served [.dispatched { header := { serverMethod := "Foo.Sum", seq := 7, error := "" },
                             svc := fooService, mtype := fooSumMT }, .fatal] := by
  constructor
  · decide
  · decide

/-- C10: `parseOption` on an explicitly supplied single non-nil option
always overwrites the magic number with the default constant and defaults
an empty codec type, and every accepted option carries the default magic
number. -/
theorem parseOption_forces_default_magic : ParseOptionConcl := by
  constructor
  · intro o
    by_cases hc : o.codecType = "" <;>
      simp [parseOption, DefaultOption, hc]
  · intro opts r h
    cases opts with
    | nil =>
      simp [parseOption] at h
      simp [← h, DefaultOption]
    | cons o0 rest =>
      cases o0 with
      | none =>
        simp [parseOption] at h
        simp [← h, DefaultOption]
      | some opt =>
        by_cases hl : rest.length ≠ 0
        · simp [parseOption, hl] at h
        · by_cases hc : opt.codecType = "" <;>
            · simp [parseOption, hl, hc] at h
              simp [← h, DefaultOption]

/-- C10 witness: a concrete option with a wrong magic number and empty
codec type is rewritten to the default descriptor. -/
theorem parseOption_forces_default_magic_witness :
    parseOption [some { magicNumber := 7, codecType := "" }] =
      .ok { magicNumber := MagicNumber, codecType := GobType } := by
  have h := parseOption_forces_default_magic.1 { magicNumber := 7, codecType := "" }
  simpa using h

/-- C9 counterexample: both encodes succeed, so `Write` returns nil, but
the deferred flush hits a connection-write failure after the header item;
the error is discarded, the body item stays pending in the internal
buffer, and the codec is not closed — refuting the claimed atomicity
(nil return with both parts flushed, or error with the codec closed,
never a half-written frame pending). -/
theorem gobWrite_flush_failure_leaves_pending_frame :
    (emptyGob.write { serverMethod := "Foo.Sum", seq := 1, error := "" } none none (some 1)).2 =
      none ∧
    (emptyGob.write { serverMethod := "Foo.Sum", seq := 1, error := "" } none none (some 1)).1.buf =
      [Chunk.bodyChunk] ∧
    (emptyGob.write { serverMethod := "Foo.Sum", seq := 1, error := "" } none none
        (some 1)).1.connWritten =
      [Chunk.headerChunk { serverMethod := "Foo.Sum", seq := 1, error := "" }] ∧
    (emptyGob.write { serverMethod := "Foo.Sum", seq := 1, error := "" } none none
        (some 1)).1.connClosed = false := by
  refine ⟨by decide, by decide, by decide, by decide⟩

/-- C9 amended: `GobCodec.Write`, started with an empty buffer, returns nil
exactly when both encodes succeed (the discarded flush outcome never
changes the return value); when it returns nil and the flush succeeded,
header and body are both on the connection and the buffer is empty; when
it returns a non-nil encode error the codec has closed the connection
before returning.  When the flush fails, frame bytes remain pending in
the buffer even though `Write` reports nil. -/
theorem gobWrite_write_contract (g : GobCodec) (h : Header) (hErr bErr : Option String)
    (flushRes : Option Nat) (hbuf : g.buf = []) : GobWriteConcl g h hErr bErr flushRes := by
  cases hErr <;> cases bErr <;> cases flushRes <;>
    simp [GobWriteConcl, GobCodec.write, GobCodec.flush, GobCodec.closeCodec, hbuf]

/-- C9 witness: the write contract at a concrete empty-buffer codec, a
concrete header and a successful flush. -/
theorem gobWrite_write_contract_witness :
    emptyGob.buf = [] ∧
    GobWriteConcl emptyGob { serverMethod := "Foo.Sum", seq := 1, error := "" } none none none :=
  ⟨rfl, gobWrite_write_contract _ _ _ _ _ rfl⟩

/-- C7: on a client that is closing or already shut down, `send` (and so
`Go` and `Call`) completes the call with `ErrShutdown` at once, the client
state is returned untouched (no pending entry inserted, sequence counter
unchanged) and nothing is written through the codec. -/
theorem send_after_shutdown (c : Client) (call : Call) (we : Option GoErr)
    (h : c.closing = true ∨ c.shutdown = true) : ShutdownRejectConcl c call we := by
  have hcs : (c.closing || c.shutdown) = true := by
    rcases h with h | h <;> simp [h]
  constructor
  · simp [Client.send, Client.registryCall, hcs]
  · intro m dc hdc
    have hsend : c.send { seq := 0, serverMethod := m, error := none, doneCount := 0 } we =
        { client := c, writes := [],
          completed := [{ seq := 0, serverMethod := m, error := some GoErr.errShutdown, doneCount := 1 }] } := by
      simp [Client.send, Client.registryCall, hcs]
    cases dc with
    | none =>
      have hg : Client.goCall c m none we =
          .ran (c.send { seq := 0, serverMethod := m, error := none, doneCount := 0 } we) := rfl
      rw [hg, hsend]
    | some n =>
      cases n with
      | zero => exact absurd rfl hdc
      | succ k =>
        have hg : Client.goCall c m (some (k + 1)) we =
            .ran (c.send { seq := 0, serverMethod := m, error := none, doneCount := 0 } we) := rfl
        rw [hg, hsend]

/-- C7 witness: the rejection conclusion at a concrete closed client. -/
theorem send_after_shutdown_witness :
    (closedClient.closing = true ∨ closedClient.shutdown = true) ∧
    ShutdownRejectConcl closedClient callA none :=
  ⟨Or.inl rfl, send_after_shutdown _ _ _ (Or.inl rfl)⟩

theorem fmtNoArgsAux_no_percent (fuel : Nat) :
    ∀ l : List Char, l.length ≤ fuel → '%' ∉ l → fmtNoArgsAux fuel l = l := by
  induction fuel with
  | zero =>
    intro l hl _
    rw [List.length_eq_zero.mp (Nat.le_zero.mp hl)]
    rfl
  | succ n ih =>
    intro l hl hp
    cases l with
    | nil => rfl
    | cons c rest =>
      have hc : ¬ c = '%' := fun he => hp (he ▸ List.mem_cons_self c rest)
      simp only [fmtNoArgsAux, if_neg hc]
      rw [ih rest (by simpa using Nat.le_of_succ_le_succ hl)
        (fun hm => hp (List.mem_cons_of_mem c hm))]

theorem fmtErrorf_no_percent (s : String) (h : '%' ∉ s.data) : fmtErrorf s = s := by
  cases s with
  | mk data =>
    show String.mk (fmtNoArgsAux data.length data) = String.mk data
    rw [fmtNoArgsAux_no_percent data.length data (Nat.le_refl _) h]

/-- C6 counterexample: a matched reply whose header error string contains
a format directive (`100%x`): `fmt.Errorf` renders the directive with no
operands, so the recorded message `100%!x(MISSING)` differs from the
header string, refuting the claimed message equality. -/
theorem receiveStep_percent_directive_mangles :
    (clientTwoPending.receiveStep
        { serverMethod := "Foo.Sum", seq := 1, error := "100%x" } none).completed =
      [{ callA with error := some (.errMsg "100%!x(MISSING)"), doneCount := 1 }] ∧
    ("100%!x(MISSING)" : String) ≠ "100%x" := by
  refine ⟨by decide, by decide⟩

/-- C6 amended: one receive-loop iteration behaves per the frame: unmatched
sequence number — drain into the nil destination, nothing completed;
matched with a non-empty header error — drain into nil, complete the call
with the error obtained by rendering the header string as a format with no
operands (whose message equals the string exactly when it contains no
percent character); matched with an empty header error — decode into the
reply destination, recording a decode failure as `reading body ...` before
completing. -/
theorem receiveStep_frame_handling (c : Client) (h : Header) (be : Option String) :
    ReceiveStepConcl c h be := by
  refine ⟨?_, ?_, ?_, ?_⟩
  · cases hl : lookupA c.pending h.seq with
    | none => simp [Client.receiveStep, Client.removeCall, hl]
    | some call =>
      by_cases he : h.error = "" <;> cases be <;>
        simp [Client.receiveStep, Client.removeCall, hl, he]
  · intro hl
    simp [Client.receiveStep, Client.removeCall, hl]
  · intro call hl he
    refine ⟨?_, ?_, fun hnp => fmtErrorf_no_percent h.error hnp⟩ <;>
      simp [Client.receiveStep, Client.removeCall, hl, he]
  · intro call hl he
    refine ⟨?_, ?_, ?_⟩
    · cases be <;> simp [Client.receiveStep, Client.removeCall, hl, he]
    · intro hbe
      subst hbe
      simp [Client.receiveStep, Client.removeCall, hl, he]
    · intro e hbe
      subst hbe
      simp [Client.receiveStep, Client.removeCall, hl, he]

/-- C6 witness: the frame-handling conclusion at a concrete client with
two pending calls and a matching success header. -/
theorem receiveStep_frame_handling_witness :
    ReceiveStepConcl clientTwoPending { serverMethod := "Foo.Sum", seq := 1, error := "" } none :=
  receiveStep_frame_handling _ _ _

/-! ## Lemmas for the shutdown-flag claim -/

theorem registryCall_shutdown (c : Client) (call : Call) :
    ((c.registryCall call).1).shutdown = c.shutdown := by
  by_cases hcs : (c.closing || c.shutdown) = true <;>
    simp [Client.registryCall, hcs]

theorem registryCall_closing (c : Client) (call : Call) :
    ((c.registryCall call).1).closing = c.closing := by
  by_cases hcs : (c.closing || c.shutdown) = true <;>
    simp [Client.registryCall, hcs]

theorem removeCall_shutdown (c : Client) (seq : Nat) :
    ((c.removeCall seq).1).shutdown = c.shutdown := rfl

theorem receiveStep_client_eq (c : Client) (h : Header) (be : Option String) :
    (c.receiveStep h be).client = (c.removeCall h.seq).1 := by
  cases hl : lookupA c.pending h.seq with
  | none => simp [Client.receiveStep, Client.removeCall, hl]
  | some call =>
    by_cases he : h.error = "" <;> cases be <;>
      simp [Client.receiveStep, Client.removeCall, hl, he]

theorem send_shutdown (c : Client) (call : Call) (we : Option GoErr) :
    ((c.send call we).client).shutdown = c.shutdown := by
  have h1 := registryCall_shutdown c call
  rcases hr : c.registryCall call with ⟨c1, r⟩
  rw [hr] at h1
  replace h1 : c1.shutdown = c.shutdown := h1
  cases r with
  | error e => simp [Client.send, hr, h1]
  | ok s =>
    cases we with
    | none => simp [Client.send, hr, h1]
    | some err =>
      cases hrm : lookupA c1.pending s with
      | none => simp [Client.send, hr, Client.removeCall, hrm, h1]
      | some call2 => simp [Client.send, hr, Client.removeCall, hrm, h1]

theorem receiveRun_shutdown (ins : List (Except String (Header × Option String))) :
    ∀ c : Client, ((c.receiveRun ins).1).shutdown = true := by
  induction ins with
  | nil => intro c; simp [Client.receiveRun, Client.terminalCalls]
  | cons x rest ih =>
    intro c
    cases x with
    | error e => simp [Client.receiveRun, Client.terminalCalls]
    | ok p =>
      obtain ⟨h, be⟩ := p
      cases hse : (c.receiveStep h be).err with
      | some e => simp [Client.receiveRun, hse, Client.terminalCalls]
      | none => simp [Client.receiveRun, hse, ih]

/-- C5: the teardown of the receive loop (`terminalCalls`) marks the client shut
down and completes every call still pending with the given error, each
exactly once (the completions are exactly the pending entries, each with
its done counter bumped by one); no other client operation changes the
shutdown flag; and the receive loop, however its input stream ends, always
finishes in this teardown. -/
theorem terminalCalls_completes_all (c : Client) (err : GoErr) : TerminalConcl c err := by
  refine ⟨rfl, ?_, ?_, ?_, ?_, ?_, ?_, ?_, ?_, ?_⟩
  · simp [Client.terminalCalls, List.map_map]
  · simp [Client.terminalCalls]
  · intro call hmem
    simp only [Client.terminalCalls, List.map_map] at hmem
    obtain ⟨p, _, hp⟩ := List.mem_map.mp hmem
    rw [← hp]
    rfl
  · exact fun call => registryCall_shutdown c call
  · exact fun seq => removeCall_shutdown c seq
  · by_cases hcl : c.closing <;> simp [Client.closeClient, hcl]
  · intro h be
    rw [receiveStep_client_eq]
    exact removeCall_shutdown c h.seq
  · exact fun call we => send_shutdown c call we
  · exact fun ins => receiveRun_shutdown ins c

/-- C5 witness: the teardown conclusion at a concrete client with two
pending calls and a concrete end-of-file error. -/
theorem terminalCalls_completes_all_witness :
    TerminalConcl clientTwoPending (GoErr.errMsg "EOF") :=
  terminalCalls_completes_all _ _

/-! ## The serve-loop classification (claim C3) -/

/-- C3 counterexample: with the `Foo` service registered, a frame whose
header resolves to `Foo.Sum` but whose body fails to decode makes
`readRequest` return a nil request, so the serve loop breaks (the
connection is torn down) instead of answering the error and continuing, as
the claim states. -/
theorem serveCodec_body_decode_exits_loop :
    findService demoServiceMap "Foo.Sum" = .ok (fooService, fooSumMT) ∧
    (serveCodecStep demoServiceMap bodyFailIn).1 = .fatal ∧
    serveCodec demoServiceMap bodyFailIn 2 = [.fatal] := by
  refine ⟨by decide, by decide, by decide⟩

/-- C3 amended: in the serve loop, a header-read failure or a body-decode
failure is fatal for the connection (the iteration breaks the loop), while
a service/method-resolution failure is per-request: the error field of the header
field is populated, the placeholder body is sent back, and the loop
continues with the connection open. -/
theorem serveCodec_error_classification (sm : List (String × Service)) (cin : CodecIn) :
    ServeClassifyConcl sm cin := by
  refine ⟨?_, ?_, ?_, ?_, ?_, ?_⟩
  · intro hh
    simp [serveCodecStep, readRequest, hh]
  · intro e hrest hh
    simp [serveCodecStep, readRequest, hh]
  · intro h hrest e hh hf
    simp [serveCodecStep, readRequest, hh, hf]
  · intro h hrest svcmt e brest hh hf hb
    obtain ⟨svc, mtype⟩ := svcmt
    simp [serveCodecStep, readRequest, hh, hf, hb]
  · intro fuel hstep
    rcases hp : serveCodecStep sm cin with ⟨o, cin'⟩
    rw [hp] at hstep
    simp only at hstep
    subst hstep
    simp [serveCodec, hp]
  · intro fuel h body cin' hp
    simp [serveCodec, hp]

/-- C3 witness: the classification conclusion at the concrete service map
and the body-failure input. -/
theorem serveCodec_error_classification_witness :
    ServeClassifyConcl demoServiceMap bodyFailIn :=
  serveCodec_error_classification _ _

/-! ## The registration shape (claim C2) -/

theorem registerStep_lookup_ne (acc : List (String × MethodType)) (m : GoMethod)
    (name : String) (h : m.name ≠ name) :
    lookupA (registerStep acc m) name = lookupA acc name := by
  unfold registerStep
  split
  · split
    · exact lookupA_insertA_ne _ _ _ _ (fun he => h he.symm)
    · rfl
  · rfl

theorem registerStep_lookup_self (acc : List (String × MethodType)) (m : GoMethod) :
    lookupA (registerStep acc m) m.name =
      if SpecAdmittedAmended m then some (mkMethodType m) else lookupA acc m.name := by
  obtain ⟨name, ins, outs⟩ := m
  rcases ins with _ | ⟨i0, _ | ⟨i1, _ | ⟨i2, _ | ⟨i3, itl⟩⟩⟩⟩ <;>
    rcases outs with _ | ⟨o0, _ | ⟨o1, otl⟩⟩ <;>
      simp [registerStep, SpecAdmittedAmended, mkMethodType] <;>
        (split <;> simp [lookupA_insertA_self])

theorem foldl_registerStep_not_mem (ms : List GoMethod)
    (acc : List (String × MethodType)) (name : String) (h : ∀ m ∈ ms, m.name ≠ name) :
    lookupA (ms.foldl registerStep acc) name = lookupA acc name := by
  induction ms generalizing acc with
  | nil => rfl
  | cons m0 rest ih =>
    simp only [List.foldl_cons]
    rw [ih (registerStep acc m0) (fun m hm => h m (by simp [hm]))]
    exact registerStep_lookup_ne acc m0 name (h m0 (by simp))

theorem foldl_registerStep_mem (ms : List GoMethod) :
    ∀ (acc : List (String × MethodType)) (m : GoMethod), m ∈ ms →
    (ms.map GoMethod.name).Nodup →
    lookupA (ms.foldl registerStep acc) m.name =
      if SpecAdmittedAmended m then some (mkMethodType m) else lookupA acc m.name := by
  induction ms with
  | nil =>
    intro acc m hm
    simp at hm
  | cons m0 rest ih =>
    intro acc m hm hnd
    simp only [List.map_cons, List.nodup_cons] at hnd
    obtain ⟨hn0, hndr⟩ := hnd
    rcases List.mem_cons.mp hm with hm0 | hmr
    · subst hm0
      simp only [List.foldl_cons]
      rw [foldl_registerStep_not_mem rest (registerStep acc m) m.name
        (fun m1 hm1 heq => hn0 (heq ▸ List.mem_map_of_mem GoMethod.name hm1))]
      exact registerStep_lookup_self acc m
    · have hne0 : m0.name ≠ m.name := by
        intro he
        exact hn0 (he ▸ List.mem_map_of_mem GoMethod.name hmr)
      simp only [List.foldl_cons]
      rw [ih (registerStep acc m0) m hmr hndr]
      rw [registerStep_lookup_ne acc m0 m.name hne0]

/-- C2 counterexample: a method shaped `(receiver, Args, Args) → error`
whose reply parameter is an exported struct and not a pointer is
nevertheless admitted by `registerMethods`, refuting the claim that the
admitted set requires a pointer reply parameter. -/
theorem registerMethods_admits_nonpointer_reply :
    (lookupA (registerMethods [nonPtrReplyMethod]) "BadReply").isSome = true ∧
    GoType.isPtr (nonPtrReplyMethod.ins.getD 2 errorType) = false := by
  refine ⟨by decide, by decide⟩

/-- C2 amended: for a receiver whose reflected methods have pairwise
distinct names (as Go method sets do), a method is registered exactly when
it has three inputs (receiver, argument, reply), a single output equal to
the `error` interface type, and argument and reply types exported or
built-in — with no pointer requirement on the reply parameter — and the
stored descriptor caches input 1 as `ArgType` and input 2 as `ReplyType`;
methods not matching the shape are skipped without an error. -/
theorem registerMethods_admitted_shape (ms : List GoMethod) (m : GoMethod)
    (hnd : (ms.map GoMethod.name).Nodup) (hm : m ∈ ms) : RegisterShapeConcl ms m := by
  have hmain := foldl_registerStep_mem ms [] m hm hnd
  have hreg : registerMethods ms = ms.foldl registerStep [] := rfl
  constructor
  · rw [hreg, hmain]
    by_cases hA : SpecAdmittedAmended m <;> simp [hA, lookupA]
  · intro r argT replyT outT hi ho hA
    rw [hreg, hmain, if_pos hA]
    simp [mkMethodType, hi]

/-- C2 witness: the registration conclusion for the concrete `Foo.Sum`
receiver method. -/
theorem registerMethods_admitted_shape_witness :
    ([fooSumMethod].map GoMethod.name).Nodup ∧ fooSumMethod ∈ [fooSumMethod] ∧
    RegisterShapeConcl [fooSumMethod] fooSumMethod :=
  ⟨by decide, by simp, registerMethods_admitted_shape _ _ (by decide) (by simp)⟩

/-! ## The sequence-number invariant (claim C8) -/

theorem send_client_cases (c : Client) (call : Call) (we : Option GoErr) :
    (c.send call we).client = (c.registryCall call).1 ∨
    ∃ s, (c.send call we).client = (((c.registryCall call).1).removeCall s).1 := by
  rcases hr : c.registryCall call with ⟨c1, r⟩
  have hc1 : (c.registryCall call).1 = c1 := by rw [hr]
  cases r with
  | error e =>
    left
    simp [Client.send, hr, hc1]
  | ok s =>
    cases we with
    | none =>
      left
      simp [Client.send, hr, hc1]
    | some err =>
      right
      refine ⟨s, ?_⟩
      cases hrm : lookupA c1.pending s with
      | none => simp [Client.send, hr, Client.removeCall, hrm]
      | some call2 => simp [Client.send, hr, Client.removeCall, hrm]

theorem registryCall_seq_le (c : Client) (call : Call) :
    ((c.registryCall call).1).seq ≤ c.seq + 1 := by
  by_cases hcs : (c.closing || c.shutdown) = true
  · simp [Client.registryCall, hcs]
  · simp [Client.registryCall, hcs]
    exact Nat.mod_le _ _

theorem applyOp_seq_le (c : Client) (op : ClientOp) : (applyOp c op).seq ≤ c.seq + 1 := by
  cases op with
  | registry call => exact registryCall_seq_le c call
  | remove s =>
    show ((c.removeCall s).1).seq ≤ c.seq + 1
    simp [Client.removeCall]
  | sendOp call we =>
    show ((c.send call we).client).seq ≤ c.seq + 1
    rcases send_client_cases c call we with h | ⟨s, h⟩ <;> rw [h]
    · exact registryCall_seq_le c call
    · show (((c.registryCall call).1).removeCall s).1.seq ≤ c.seq + 1
      simp only [Client.removeCall]
      exact registryCall_seq_le c call
  | recv h be =>
    show ((c.receiveStep h be).client).seq ≤ c.seq + 1
    rw [receiveStep_client_eq]
    simp [Client.removeCall]
  | terminate err =>
    show ((c.terminalCalls err).1).seq ≤ c.seq + 1
    simp [Client.terminalCalls]
  | closeOp =>
    show ((c.closeClient).1).seq ≤ c.seq + 1
    by_cases hcl : c.closing <;> simp [Client.closeClient, hcl]

theorem seqInv_pending_sublist (c c' : Client)
    (hsub : List.Sublist c'.pending c.pending) (hseq : c'.seq = c.seq)
    (h : SeqInv c) : SeqInv c' := by
  obtain ⟨h1, h2, h3⟩ := h
  refine ⟨hseq ▸ h1, ?_, ?_⟩
  · exact List.Nodup.sublist (hsub.map Prod.fst) h2
  · intro p hp
    have := h3 p (hsub.subset hp)
    exact ⟨this.1, hseq ▸ this.2.1, this.2.2⟩

theorem seqInv_registryCall (c : Client) (call : Call) (h : SeqInv c)
    (hs : c.seq + 1 < 2 ^ 64) : SeqInv ((c.registryCall call).1) := by
  obtain ⟨h1, h2, h3⟩ := h
  by_cases hcs : (c.closing || c.shutdown) = true
  · simp only [Client.registryCall, hcs, if_true]
    exact ⟨h1, h2, h3⟩
  · have hmod : (c.seq + 1) % 2 ^ 64 = c.seq + 1 := Nat.mod_eq_of_lt hs
    have hfresh : ∀ p ∈ c.pending, p.1 ≠ c.seq :=
      fun p hp => Nat.ne_of_lt (h3 p hp).2.1
    have hins := insertA_eq_append c.pending c.seq { call with seq := c.seq } hfresh
    have hnotin : c.seq ∉ c.pending.map Prod.fst := by
      intro hmem
      obtain ⟨p, hp, hpe⟩ := List.mem_map.mp hmem
      have := (h3 p hp).2.1
      omega
    simp only [Client.registryCall, hcs, if_false, Bool.false_eq_true]
    refine ⟨?_, ?_, ?_⟩
    · show 1 ≤ (c.seq + 1) % 2 ^ 64
      omega
    · show (List.map Prod.fst (insertA c.pending c.seq { call with seq := c.seq })).Nodup
      rw [hins, List.map_append]
      simp [List.nodup_append, h2, hnotin]
    · show ∀ p ∈ insertA c.pending c.seq { call with seq := c.seq },
        1 ≤ p.1 ∧ p.1 < (c.seq + 1) % 2 ^ 64 ∧ p.2.seq = p.1
      rw [hins]
      intro p hp
      rcases List.mem_append.mp hp with hmem | hmem
      · obtain ⟨ha, hb, hc⟩ := h3 p hmem
        exact ⟨ha, by omega, hc⟩
      · have hp' : p = (c.seq, { call with seq := c.seq }) := by simpa using hmem
        subst hp'
        exact ⟨h1, by omega, rfl⟩

theorem seqInv_terminalCalls (c : Client) (err : GoErr) (h : SeqInv c) :
    SeqInv ((c.terminalCalls err).1) := by
  obtain ⟨h1, h2, h3⟩ := h
  refine ⟨h1, ?_, ?_⟩
  · simpa [Client.terminalCalls, List.map_map] using h2
  · intro p hp
    simp only [Client.terminalCalls] at hp
    obtain ⟨q, hq, hqe⟩ := List.mem_map.mp hp
    rw [← hqe]
    exact ⟨(h3 q hq).1, (h3 q hq).2.1, (h3 q hq).2.2⟩

theorem applyOp_seqInv (c : Client) (op : ClientOp) (h : SeqInv c)
    (hs : c.seq + 1 < 2 ^ 64) : SeqInv (applyOp c op) := by
  cases op with
  | registry call => exact seqInv_registryCall c call h hs
  | remove s =>
    exact seqInv_pending_sublist c _ (removeA_sublist c.pending s) rfl h
  | sendOp call we =>
    show SeqInv ((c.send call we).client)
    rcases send_client_cases c call we with he | ⟨s, he⟩ <;> rw [he]
    · exact seqInv_registryCall c call h hs
    · exact seqInv_pending_sublist ((c.registryCall call).1) _
        (removeA_sublist _ s) rfl (seqInv_registryCall c call h hs)
  | recv hd be =>
    show SeqInv ((c.receiveStep hd be).client)
    rw [receiveStep_client_eq]
    exact seqInv_pending_sublist c _ (removeA_sublist c.pending hd.seq) rfl h
  | terminate err => exact seqInv_terminalCalls c err h
  | closeOp =>
    show SeqInv ((c.closeClient).1)
    by_cases hcl : c.closing <;>
      · simp only [Client.closeClient, hcl, if_true, if_false]
        exact h

theorem runOps_seqInv (ops : List ClientOp) :
    ∀ c : Client, SeqInv c → c.seq + ops.length < 2 ^ 64 →
      SeqInv (runOps c ops) ∧ (runOps c ops).seq ≤ c.seq + ops.length := by
  induction ops with
  | nil =>
    intro c h _
    exact ⟨h, Nat.le_refl _⟩
  | cons op rest ih =>
    intro c h hs
    have hs1 : c.seq + 1 < 2 ^ 64 := by
      simp only [List.length_cons] at hs
      omega
    have h1 := applyOp_seqInv c op h hs1
    have hle := applyOp_seq_le c op
    have hs2 : (applyOp c op).seq + rest.length < 2 ^ 64 := by
      simp only [List.length_cons] at hs
      omega
    have hrun : runOps c (op :: rest) = runOps (applyOp c op) rest := rfl
    rw [hrun]
    obtain ⟨ha, hb⟩ := ih (applyOp c op) h1 hs2
    refine ⟨ha, ?_⟩
    simp only [List.length_cons]
    omega

/-- C8: starting a fresh client-codec, across any trace of client
operations short of exhausting the 64-bit counter, the sequence counter
starts at 1, pending sequence numbers are pairwise distinct, nonzero and
stamped on their calls, and any successful registration issues a nonzero
sequence number held by no call that was pending before it. -/
theorem sequence_numbers_unique (ops : List ClientOp)
    (h : ops.length + 1 < 2 ^ 64) : SeqClaimConcl ops := by
  have hstart : SeqInv newClientCodec := by
    refine ⟨Nat.le_refl 1, ?_, ?_⟩
    · simp [newClientCodec]
    · intro p hp
      simp [newClientCodec] at hp
  have hrun := runOps_seqInv ops newClientCodec hstart (by simp [newClientCodec]; omega)
  obtain ⟨hinv, _⟩ := hrun
  refine ⟨rfl, hinv, ?_⟩
  intro call c' s hr
  obtain ⟨h1, h2, h3⟩ := hinv
  by_cases hcs : ((runOps newClientCodec ops).closing || (runOps newClientCodec ops).shutdown) = true
  · rw [Client.registryCall] at hr
    rw [if_pos hcs] at hr
    exact absurd (congrArg Prod.snd hr) (by simp)
  · rw [Client.registryCall] at hr
    rw [if_neg hcs] at hr
    have hseq : s = (runOps newClientCodec ops).seq := by
      have := congrArg Prod.snd hr
      simpa using this.symm
    subst hseq
    refine ⟨by omega, ?_⟩
    intro p hp
    have := h3 p hp
    omega

/-- C8 witness: the conclusion for the concrete one-registration trace. -/
theorem sequence_numbers_unique_witness :
    ([ClientOp.registry callA].length + 1 < 2 ^ 64) ∧
    SeqClaimConcl [ClientOp.registry callA] :=
  ⟨by norm_num, sequence_numbers_unique _ (by norm_num)⟩

end RpcGo
